import Mathlib

/-!
Verification of the narration core of `liseuse` (`src/app.js`), the
`SpeechEngine` module: text chunking (`chunkText`), queue construction
(`buildQueue`), the chunk-driving step (`speakNextChunk` and the
utterance `onend` / `onerror` handlers), and the public operations
`play`, `pause`, `stop`, `playFrom`, `setSegmentIndex`,
`getSegmentIndex`, plus the cursor-restore computation of `loadPDF`.

JavaScript strings are modelled as lists of UTF-16 code units
(`List Char`; every character appearing here is in the BMP, so one
`Char` is one code unit).  JavaScript numbers holding integers are
modelled as `Int` where negative values are reachable (the playback
cursor) and as `Nat` where they are plainly non-negative counters.
-/

set_option maxRecDepth 100000

namespace Liseuse

/-- JavaScript string, as its list of UTF-16 code units. -/
abbrev JStr := List Char

/-- Whitespace recognised by `String.prototype.trim` (restricted to the
whitespace characters that occur in this development). -/
def isWS (c : Char) : Bool :=
  c = ' ' || c = '\t' || c = '\n' || c = '\r'

/-- All non-whitespace characters of a string, in order. -/
def stripWS (s : JStr) : JStr := s.filter (fun c => !isWS c)

/-- JavaScript `s.trim()`: remove leading and trailing whitespace. -/
def jsTrim (s : JStr) : JStr :=
  ((s.dropWhile isWS).reverse.dropWhile isWS).reverse

/-- `hasPrefixList s p` = the pattern `p` occurs at the start of `s`. -/
def hasPrefixList : JStr → JStr → Bool
  | _, [] => true
  | [], _ :: _ => false
  | c :: s, d :: p => c == d && hasPrefixList s p

/-- JavaScript `s.lastIndexOf(p, f)`: the largest index `i ≤ f` at which
the pattern `p` occurs in `s` (the whole pattern must match), if any.
JavaScript returns `-1` when there is no occurrence; that is modelled as
`none`. -/
def lastIndexOf (s p : JStr) : Nat → Option Nat
  | 0 => if hasPrefixList s p then some 0 else none
  | f + 1 =>
    if hasPrefixList (s.drop (f + 1)) p then some (f + 1)
    else lastIndexOf s p f

/-- `const MAX_UTTERANCE_LEN = 200` (src/app.js line 25). -/
def MAX_UTTERANCE_LEN : Nat := 200

/-- The boundary-marker list of `chunkText`
(`['. ', '! ', '? ', '; ', ', ', ' — ', ' – ', ': ']`). -/
def punctuationMarks : List JStr :=
  [". ".data, "! ".data, "? ".data, "; ".data, ", ".data,
   " — ".data, " – ".data, ": ".data]

/-- The `for (const p of punctuation) { ... break; }` scan of
`chunkText`: the first marker in order whose last occurrence starting at
index ≤ `MAX_UTTERANCE_LEN` lies strictly after index 60 determines the
split point `idx + p.length`.  (In JavaScript the guard is
`idx > MAX_UTTERANCE_LEN * 0.3`; with `MAX_UTTERANCE_LEN = 200` the
double product `200 * 0.3` is exactly `60`, so the guard is `idx > 60`.) -/
def firstPunctSplit (remaining : JStr) : List JStr → Option Nat
  | [] => none
  | p :: rest =>
    match lastIndexOf remaining p MAX_UTTERANCE_LEN with
    | some idx =>
      if 60 < idx then some (idx + p.length)
      else firstPunctSplit remaining rest
    | none => firstPunctSplit remaining rest

/-- The `splitAt` computed by one iteration of the `chunkText` loop:
a qualifying punctuation boundary, else a qualifying plain space
(`lastIndexOf(' ', MAX_UTTERANCE_LEN)`, accepted when `> 60`, split after
it), else a hard cut at `MAX_UTTERANCE_LEN`. -/
def splitPoint (remaining : JStr) : Nat :=
  match firstPunctSplit remaining punctuationMarks with
  | some sp => sp
  | none =>
    match lastIndexOf remaining [' '] MAX_UTTERANCE_LEN with
    | some spaceIdx =>
      if 60 < spaceIdx then spaceIdx + 1 else MAX_UTTERANCE_LEN
    | none => MAX_UTTERANCE_LEN

theorem hasPrefixList_length {s p : JStr} (h : hasPrefixList s p = true) :
    p.length ≤ s.length := by
  induction p generalizing s with
  | nil => simp
  | cons d p ih =>
    cases s with
    | nil => simp [hasPrefixList] at h
    | cons c s =>
      simp only [hasPrefixList, Bool.and_eq_true] at h
      simpa [Nat.succ_le_succ_iff] using ih h.2

theorem hasPrefixList_getElem? {s p : JStr} (h : hasPrefixList s p = true)
    {j : Nat} (hj : j < p.length) : s[j]? = p[j]? := by
  induction p generalizing s j with
  | nil => simp at hj
  | cons d p ih =>
    cases s with
    | nil => simp [hasPrefixList] at h
    | cons c s =>
      simp only [hasPrefixList, Bool.and_eq_true, beq_iff_eq] at h
      cases j with
      | zero => simp [h.1]
      | succ j =>
        simp only [List.getElem?_cons_succ]
        exact ih h.2 (by simpa using Nat.lt_of_succ_lt_succ hj)

theorem lastIndexOf_le {s p : JStr} {f i : Nat}
    (h : lastIndexOf s p f = some i) : i ≤ f := by
  induction f with
  | zero =>
    simp only [lastIndexOf] at h
    split at h
    · cases h; exact Nat.le_refl _
    · simp at h
  | succ f ih =>
    simp only [lastIndexOf] at h
    split at h
    · cases h; exact Nat.le_refl _
    · exact Nat.le_succ_of_le (ih h)

theorem lastIndexOf_matches {s p : JStr} {f i : Nat}
    (h : lastIndexOf s p f = some i) :
    hasPrefixList (s.drop i) p = true := by
  induction f with
  | zero =>
    simp only [lastIndexOf] at h
    split at h
    · cases h; simpa using ‹hasPrefixList s p = true›
    · simp at h
  | succ f ih =>
    simp only [lastIndexOf] at h
    split at h
    · cases h; assumption
    · exact ih h

theorem firstPunctSplit_spec {r : JStr} {ps : List JStr} {sp : Nat}
    (h : firstPunctSplit r ps = some sp) :
    ∃ p ∈ ps, ∃ idx, lastIndexOf r p MAX_UTTERANCE_LEN = some idx ∧
      60 < idx ∧ sp = idx + p.length := by
  induction ps with
  | nil => simp [firstPunctSplit] at h
  | cons p rest ih =>
    simp only [firstPunctSplit] at h
    split at h
    case h_1 idx hidx =>
      split at h
      · cases h
        exact ⟨p, by simp, idx, hidx, by assumption, rfl⟩
      · obtain ⟨q, hq, w⟩ := ih h
        exact ⟨q, by simp [hq], w⟩
    case h_2 =>
      obtain ⟨q, hq, w⟩ := ih h
      exact ⟨q, by simp [hq], w⟩

theorem splitPoint_pos (r : JStr) : 0 < splitPoint r := by
  unfold splitPoint
  split
  case h_1 sp hsp =>
    obtain ⟨p, _, idx, _, h60, rfl⟩ := firstPunctSplit_spec hsp
    omega
  case h_2 =>
    split
    · split <;> simp [MAX_UTTERANCE_LEN]
    · simp [MAX_UTTERANCE_LEN]

theorem length_dropWhile_le' (p : Char → Bool) (l : JStr) :
    (l.dropWhile p).length ≤ l.length := by
  induction l with
  | nil => simp
  | cons c l ih =>
    by_cases h : p c
    · simp only [List.dropWhile_cons, h, if_true]
      exact Nat.le_succ_of_le ih
    · simp [List.dropWhile_cons, h]

theorem length_jsTrim_le (s : JStr) : (jsTrim s).length ≤ s.length := by
  unfold jsTrim
  calc ((s.dropWhile isWS).reverse.dropWhile isWS).reverse.length
      = ((s.dropWhile isWS).reverse.dropWhile isWS).length := by
        simp
    _ ≤ (s.dropWhile isWS).reverse.length := length_dropWhile_le' _ _
    _ = (s.dropWhile isWS).length := by simp
    _ ≤ s.length := length_dropWhile_le' _ _

/-- Each loop iteration of `chunkText` strictly shortens `remaining`
(the split point is positive, so the prefix removed is nonempty). -/
theorem remaining_shortens (r : JStr) (h : MAX_UTTERANCE_LEN < r.length) :
    (jsTrim (r.drop (splitPoint r))).length < r.length := by
  have h1 : 0 < splitPoint r := splitPoint_pos r
  have h2 : (jsTrim (r.drop (splitPoint r))).length ≤
      (r.drop (splitPoint r)).length := length_jsTrim_le _
  have h3 : (r.drop (splitPoint r)).length = r.length - splitPoint r := by
    simp
  have h4 : (0:Nat) < r.length := by
    have : (0:Nat) < MAX_UTTERANCE_LEN := by simp [MAX_UTTERANCE_LEN]
    omega
  omega

/-- The `while (remaining.length > 0)` loop of `chunkText`: push the
current chunk `remaining.slice(0, splitAt).trim()` and continue on
`remaining.slice(splitAt).trim()`; if `remaining` fits within the bound
it is pushed whole and the loop breaks. -/
def chunkLoop (remaining : JStr) : List JStr :=
  if remaining.length = 0 then []
  else if remaining.length ≤ MAX_UTTERANCE_LEN then [remaining]
  else
    jsTrim (remaining.take (splitPoint remaining)) ::
      chunkLoop (jsTrim (remaining.drop (splitPoint remaining)))
termination_by remaining.length
decreasing_by
  exact remaining_shortens remaining (by omega)

/-- `chunkText` (src/app.js lines 420–453): split long text for iOS
safety.  Text within the bound is returned as a single chunk (note: the
early return bypasses both trimming and the final empty-chunk filter);
otherwise the splitting loop runs and empty chunks are filtered out. -/
def chunkText (text : JStr) : List JStr :=
  if text.length ≤ MAX_UTTERANCE_LEN then [text]
  else (chunkLoop text).filter (fun c => decide (0 < c.length))

/-- Single space, as a one-character string: the separator used when the
spec's coverage property joins chunks back together. -/
def joinSpace : List JStr → JStr
  | [] => []
  | [c] => c
  | c :: d :: rest => c ++ (' ' :: joinSpace (d :: rest))

/-- The maximal whitespace-free runs of a string, in order (`cur` is the
reversed run being accumulated). -/
def wordsAux (cur : JStr) : JStr → List JStr
  | [] => if cur.isEmpty then [] else [cur.reverse]
  | c :: rest =>
    if isWS c then
      if cur.isEmpty then wordsAux [] rest
      else cur.reverse :: wordsAux [] rest
    else wordsAux (c :: cur) rest

/-- The maximal whitespace-free runs ("words") of a string. -/
def jsWords (s : JStr) : List JStr := wordsAux [] s

/-- Whitespace normalization: collapse every whitespace run to a single
space and trim the ends — equivalently, the words joined by single
spaces. -/
def normalizeWS (s : JStr) : JStr := joinSpace (jsWords s)

theorem chunkLoop_step {r : JStr} (h : MAX_UTTERANCE_LEN < r.length) :
    chunkLoop r =
      jsTrim (r.take (splitPoint r)) ::
        chunkLoop (jsTrim (r.drop (splitPoint r))) := by
  have h0 : ¬ r.length = 0 := by
    have : (0:Nat) < MAX_UTTERANCE_LEN := by simp [MAX_UTTERANCE_LEN]
    omega
  have h1 : ¬ r.length ≤ MAX_UTTERANCE_LEN := by omega
  rw [chunkLoop, if_neg h0, if_neg h1]

theorem getLast?_dropWhile_isWS {l : JStr} (h : l.dropWhile isWS ≠ []) :
    (l.dropWhile isWS).getLast? = l.getLast? := by
  induction l with
  | nil => simp at h
  | cons c l ih =>
    by_cases hc : isWS c
    · rw [List.dropWhile_cons, if_pos hc] at h ⊢
      rw [ih h]
      cases l with
      | nil => simp [List.dropWhile] at h
      | cons d l => rw [List.getLast?_cons_cons]
    · rw [List.dropWhile_cons, if_neg hc]

theorem length_jsTrim_lt_of_last_ws {s : JStr} {c : Char}
    (hl : s.getLast? = some c) (hw : isWS c = true) :
    (jsTrim s).length < s.length := by
  have hs : s ≠ [] := by
    intro h; rw [h] at hl; simp at hl
  have hslen : 0 < s.length := List.length_pos.mpr hs
  by_cases hu : s.dropWhile isWS = []
  · unfold jsTrim
    rw [hu]
    simpa using hslen
  · have h1 : (s.dropWhile isWS).getLast? = some c :=
      (getLast?_dropWhile_isWS hu).trans hl
    have h2 : (s.dropWhile isWS).reverse.head? = some c := by
      rw [List.head?_reverse]; exact h1
    obtain ⟨t, ht⟩ : ∃ t, (s.dropWhile isWS).reverse = c :: t := by
      cases hrev : (s.dropWhile isWS).reverse with
      | nil => rw [hrev] at h2; simp at h2
      | cons d t =>
        rw [hrev] at h2
        simp only [List.head?_cons, Option.some.injEq] at h2
        exact ⟨t, by rw [h2]⟩
    unfold jsTrim
    rw [ht, List.dropWhile_cons, if_pos hw]
    have h3 : (t.dropWhile isWS).length ≤ t.length := length_dropWhile_le' _ _
    have h4 : t.length + 1 = (s.dropWhile isWS).length := by
      have := congrArg List.length ht
      simpa [Nat.add_comm] using this.symm
    have h5 : (s.dropWhile isWS).length ≤ s.length := length_dropWhile_le' _ _
    simpa using by omega

theorem getLast?_take_of_le {r : JStr} {sp : Nat} (h1 : 1 ≤ sp)
    (h2 : sp ≤ r.length) : (r.take sp).getLast? = r[sp - 1]? := by
  rw [List.getLast?_eq_getElem?, List.length_take,
    Nat.min_eq_left h2, List.getElem?_take, if_pos (by omega)]

theorem match_char_at {r p : JStr} {idx j : Nat}
    (h : hasPrefixList (r.drop idx) p = true) (hj : j < p.length) :
    r[idx + j]? = p[j]? := by
  rw [← List.getElem?_drop]
  exact hasPrefixList_getElem? h hj

theorem punctuationMarks_facts :
    ∀ p ∈ punctuationMarks,
      1 ≤ p.length ∧ p.length ≤ 3 ∧ p.getLast? = some ' ' := by
  decide

/-- The chunk cut in each loop iteration is at most `MAX_UTTERANCE_LEN + 2`
characters long: an accepted boundary match can start as late as index
`MAX_UTTERANCE_LEN` itself, and the longest markers (the 3-character
dash markers) then reach 3 characters further, with the marker's final
space removed again by `trim`. -/
theorem chunk_head_bound {r : JStr} (h : MAX_UTTERANCE_LEN < r.length) :
    (jsTrim (r.take (splitPoint r))).length ≤ MAX_UTTERANCE_LEN + 2 := by
  unfold splitPoint
  split
  case h_1 sp hsp =>
    obtain ⟨p, hp, idx, hfind, h60, rfl⟩ := firstPunctSplit_spec hsp
    obtain ⟨hp1, hp3, hpl⟩ := punctuationMarks_facts p hp
    have hidx : idx ≤ MAX_UTTERANCE_LEN := lastIndexOf_le hfind
    have hmatch := lastIndexOf_matches hfind
    by_cases hle : idx + p.length ≤ r.length
    · have hlast : (r.take (idx + p.length)).getLast? = some ' ' := by
        rw [getLast?_take_of_le (by omega) hle]
        have := match_char_at hmatch (j := p.length - 1) (by omega)
        rw [← List.getLast?_eq_getElem?] at this
        have heq : idx + p.length - 1 = idx + (p.length - 1) := by omega
        rw [heq, this, hpl]
      have hlt := length_jsTrim_lt_of_last_ws hlast (by simp [isWS])
      have : (r.take (idx + p.length)).length ≤ idx + p.length := by
        simp [List.length_take]
      unfold MAX_UTTERANCE_LEN at hidx ⊢
      omega
    · rw [List.take_of_length_le (by omega)]
      have := length_jsTrim_le r
      unfold MAX_UTTERANCE_LEN at hidx ⊢
      omega
  case h_2 =>
    split
    case h_1 i hfind =>
      have hi : i ≤ MAX_UTTERANCE_LEN := lastIndexOf_le hfind
      have hmatch := lastIndexOf_matches hfind
      split
      case isTrue h60 =>
        have hle : i + 1 ≤ r.length := by
          unfold MAX_UTTERANCE_LEN at hi h; omega
        have hlast : (r.take (i + 1)).getLast? = some ' ' := by
          rw [getLast?_take_of_le (by omega) hle]
          have := match_char_at hmatch (p := [' ']) (j := 0) (by simp)
          simpa using this
        have hlt := length_jsTrim_lt_of_last_ws hlast (by simp [isWS])
        have : (r.take (i + 1)).length ≤ i + 1 := by
          simp [List.length_take]
        unfold MAX_UTTERANCE_LEN at hi ⊢
        omega
      case isFalse =>
        have h1 := length_jsTrim_le (r.take MAX_UTTERANCE_LEN)
        have h2 : (r.take MAX_UTTERANCE_LEN).length ≤ MAX_UTTERANCE_LEN := by
          simp [List.length_take]
        omega
    case h_2 =>
      have h1 := length_jsTrim_le (r.take MAX_UTTERANCE_LEN)
      have h2 : (r.take MAX_UTTERANCE_LEN).length ≤ MAX_UTTERANCE_LEN := by
        simp [List.length_take]
      omega

/-- Every chunk produced by the splitting loop is at most
`MAX_UTTERANCE_LEN + 2` characters long. -/
theorem chunkLoop_bound (r : JStr) :
    ∀ c ∈ chunkLoop r, c.length ≤ MAX_UTTERANCE_LEN + 2 := by
  induction r using chunkLoop.induct with
  | case1 r h0 =>
    intro c hc
    rw [chunkLoop, if_pos h0] at hc
    simp at hc
  | case2 r h0 hle =>
    intro c hc
    rw [chunkLoop, if_neg h0, if_pos hle] at hc
    simp only [List.mem_singleton] at hc
    subst hc; omega
  | case3 r h0 hle ih =>
    intro c hc
    rw [chunkLoop_step (by omega)] at hc
    rcases List.mem_cons.mp hc with hc | hc
    · subst hc; exact chunk_head_bound (by omega)
    · exact ih c hc

theorem stripWS_dropWhile (l : JStr) :
    stripWS (l.dropWhile isWS) = stripWS l := by
  induction l with
  | nil => rfl
  | cons c l ih =>
    by_cases hc : isWS c
    · rw [List.dropWhile_cons, if_pos hc, ih]
      simp [stripWS, List.filter_cons, hc]
    · rw [List.dropWhile_cons, if_neg hc]

theorem stripWS_reverse (l : JStr) :
    stripWS l.reverse = (stripWS l).reverse :=
  List.filter_reverse _ _

theorem stripWS_jsTrim (s : JStr) : stripWS (jsTrim s) = stripWS s := by
  unfold jsTrim
  rw [stripWS_reverse, stripWS_dropWhile, stripWS_reverse,
    List.reverse_reverse, stripWS_dropWhile]

theorem stripWS_append (l₁ l₂ : JStr) :
    stripWS (l₁ ++ l₂) = stripWS l₁ ++ stripWS l₂ :=
  List.filter_append _ _

/-- Joining with single spaces and joining by plain concatenation agree
once all whitespace is removed. -/
theorem stripWS_joinSpace (cs : List JStr) :
    stripWS (joinSpace cs) = stripWS cs.flatten := by
  induction cs with
  | nil => rfl
  | cons c cs ih =>
    cases cs with
    | nil => simp [joinSpace]
    | cons d cs =>
      simp only [joinSpace, List.flatten_cons]
      rw [stripWS_append, stripWS_append]
      have hsp : stripWS (' ' :: joinSpace (d :: cs)) =
          stripWS (joinSpace (d :: cs)) := by
        simp [stripWS, List.filter_cons, isWS]
      rw [hsp, ih, List.flatten_cons]

/-- The splitting loop drops only whitespace: concatenating its chunks
preserves every non-whitespace character, in order. -/
theorem chunkLoop_stripWS (r : JStr) :
    stripWS (chunkLoop r).flatten = stripWS r := by
  induction r using chunkLoop.induct with
  | case1 r h0 =>
    rw [chunkLoop, if_pos h0]
    have : r = [] := List.length_eq_zero.mp h0
    rw [this]; rfl
  | case2 r h0 hle =>
    rw [chunkLoop, if_neg h0, if_pos hle]
    simp [List.flatten]
  | case3 r h0 hle ih =>
    rw [chunkLoop_step (by omega), List.flatten_cons, stripWS_append,
      stripWS_jsTrim, ih, stripWS_jsTrim, ← stripWS_append,
      List.take_append_drop]

/-- Removing the empty chunks does not change the concatenation. -/
theorem flatten_filter_nonempty (l : List JStr) :
    (l.filter (fun c => decide (0 < c.length))).flatten = l.flatten := by
  induction l with
  | nil => rfl
  | cons c l ih =>
    by_cases hc : 0 < c.length
    · rw [List.filter_cons_of_pos (by simpa using hc), List.flatten_cons,
        List.flatten_cons, ih]
    · have hnil : c = [] := by
        cases c with
        | nil => rfl
        | cons x xs => simp at hc
      rw [List.filter_cons_of_neg (by simpa using hc), hnil,
        List.flatten_cons, ih, List.nil_append]

/-!
The `SpeechEngine` state machine (src/app.js lines 357–575).

Observable effects — calls to the optional callbacks `onSegmentChange`,
`onStateChange`, `onFinished` and to the `speechSynthesis` facility
(`speak`, `cancel`, `pause`, `resume`) — are recorded as an event list
in the order the code performs them.  Each operation returns the new
module state together with the events it emitted.

The asynchronous callbacks of an utterance are modelled as separate
steps: `onChunkEnd` is the `utt.onend` handler, `onChunkError e` the
`utt.onerror` handler with error code `e`.  Per the Web Speech API,
`speechSynthesis.cancel()` makes every in-flight or queued utterance
report an error with code `"canceled"`/`"interrupted"` (which the
handler deliberately ignores).
-/

/-- An observable effect of the speech engine. -/
inductive Ev where
  | posChanged (i : Int)
  | stateChanged (playing paused : Bool)
  | finishedEv
  | speakEv (text : JStr)
  | cancelEv
  | pauseEv
  | resumeEv
deriving DecidableEq

/-- The module-local mutable variables of `SpeechEngine` that the
narration claims concern.  `currentSegIdx` is a JavaScript number that
can go negative through the `loadPDF` restore path, hence `Int`. -/
structure EngineState where
  isPlaying : Bool
  isPaused : Bool
  currentSegIdx : Int
  utteranceQueue : List JStr
  chunkSegmentMap : List Nat
  currentChunkIdx : Nat
deriving DecidableEq

/-- Initial values of the module-local variables
(`isPlaying = false`, `isPaused = false`, `currentSegIdx = 0`,
empty queue and map, `currentChunkIdx = 0`). -/
def initialEngineState : EngineState :=
  { isPlaying := false, isPaused := false, currentSegIdx := 0,
    utteranceQueue := [], chunkSegmentMap := [], currentChunkIdx := 0 }

/-- `setSegmentIndex(idx)` (src/app.js line 416): stores the argument
with no validation of any kind. -/
def setSegmentIndex (idx : Int) (s : EngineState) : EngineState :=
  { s with currentSegIdx := idx }

/-- `getSegmentIndex()` (src/app.js line 417). -/
def getSegmentIndex (s : EngineState) : Int := s.currentSegIdx

/-- `buildQueue(segments)` (src/app.js lines 455–467): flatten the
chunks of every segment from `currentSegIdx` to the end into
`utteranceQueue`, recording each chunk's source segment index in
`chunkSegmentMap`, and reset `currentChunkIdx` to 0.  The JavaScript
loop runs `i` from `currentSegIdx` to `segments.length - 1`; for the
non-negative cursors reached in this development that is the index
range modelled here (with a negative cursor the JavaScript code would
fault on `segments[i].text`). -/
def buildQueue (segments : List JStr) (s : EngineState) : EngineState :=
  let start := s.currentSegIdx.toNat
  let entries :=
    (List.range' start (segments.length - start)).flatMap
      (fun i => (chunkText (segments.getD i [])).map (fun c => (c, i)))
  { s with utteranceQueue := entries.map Prod.fst,
           chunkSegmentMap := entries.map Prod.snd,
           currentChunkIdx := 0 }

/-- `speakNextChunk(segments)` (src/app.js lines 469–511): at queue
exhaustion clear both flags, notify the stopped state, and fire
`onFinished`; otherwise update `currentSegIdx` from the chunk map when
it differs, notify the position, and hand the chunk text to the
synthesis facility. -/
def speakNextChunk (s : EngineState) : EngineState × List Ev :=
  if s.utteranceQueue.length ≤ s.currentChunkIdx then
    ({ s with isPlaying := false, isPaused := false },
     [Ev.stateChanged false false, Ev.finishedEv])
  else
    let text := s.utteranceQueue.getD s.currentChunkIdx []
    let segIdx : Int := (s.chunkSegmentMap.getD s.currentChunkIdx 0 : Nat)
    let s1 := if segIdx ≠ s.currentSegIdx then
        { s with currentSegIdx := segIdx } else s
    (s1, [Ev.posChanged s1.currentSegIdx, Ev.speakEv text])

/-- The `utt.onend` handler (src/app.js lines 491–499): advance the
chunk index, pre-load `currentSegIdx` from the map when another chunk
remains, and continue speaking when still playing and not paused. -/
def onChunkEnd (s : EngineState) : EngineState × List Ev :=
  let s1 := { s with currentChunkIdx := s.currentChunkIdx + 1 }
  let s2 := if s1.currentChunkIdx < s1.chunkSegmentMap.length then
      { s1 with currentSegIdx :=
          (s1.chunkSegmentMap.getD s1.currentChunkIdx 0 : Nat) }
    else s1
  if s2.isPlaying && !s2.isPaused then speakNextChunk s2 else (s2, [])

/-- The `utt.onerror` handler (src/app.js lines 501–508): an
`"interrupted"` or `"canceled"` error code (produced by an explicit
`speechSynthesis.cancel()`) is ignored outright; any other error
advances past the failed chunk and continues when still playing. -/
def onChunkError (err : String) (s : EngineState) : EngineState × List Ev :=
  if err == "interrupted" || err == "canceled" then (s, [])
  else
    let s1 := { s with currentChunkIdx := s.currentChunkIdx + 1 }
    if s1.isPlaying && !s1.isPaused then speakNextChunk s1 else (s1, [])

/-- `play(segments)` (src/app.js lines 513–527): while paused this
resumes the suspended output and notifies the playing state; otherwise
it cancels any in-flight output, raises the playing flag, rebuilds the
queue from the current cursor, notifies, and starts speaking. -/
def play (segments : List JStr) (s : EngineState) : EngineState × List Ev :=
  if s.isPaused then
    ({ s with isPaused := false }, [Ev.resumeEv, Ev.stateChanged true false])
  else
    let s1 := buildQueue segments
      { s with isPlaying := true, isPaused := false }
    let r := speakNextChunk s1
    (r.fst, Ev.cancelEv :: Ev.stateChanged true false :: r.snd)

/-- `pause()` (src/app.js lines 529–534): a no-op unless playing;
otherwise raise the paused flag, suspend the output, and notify. -/
def pause (s : EngineState) : EngineState × List Ev :=
  if !s.isPlaying then (s, [])
  else ({ s with isPaused := true }, [Ev.pauseEv, Ev.stateChanged true true])

/-- `stop()` (src/app.js lines 536–541): cancel any in-flight output,
clear both flags, and notify the stopped state.  It never fires
`onFinished`. -/
def stop (s : EngineState) : EngineState × List Ev :=
  ({ s with isPlaying := false, isPaused := false },
   [Ev.cancelEv, Ev.stateChanged false false])

/-- `playFrom(segIdx, segments)` (src/app.js lines 543–551): cancel any
in-flight output, seek the cursor, raise the playing flag, rebuild the
queue from the new cursor, notify, and start speaking. -/
def playFrom (segIdx : Int) (segments : List JStr) (s : EngineState) :
    EngineState × List Ev :=
  let s1 := buildQueue segments
    { s with currentSegIdx := segIdx, isPlaying := true, isPaused := false }
  let r := speakNextChunk s1
  (r.fst, Ev.cancelEv :: Ev.stateChanged true false :: r.snd)

/-- The cursor-restore computation of `loadPDF` (src/app.js lines
669–675): when a saved position for the same file exists, the restored
ordinal is `Math.min(saved.segIdx, segments.length - 1)` — an upper
clamp only (with zero segments this is `min saved (-1)`). -/
def restoredSegIdx (savedSegIdx : Int) (segCount : Nat) : Int :=
  min savedSegIdx ((segCount : Int) - 1)

/-- Deliver `n` consecutive utterance completions (`onend` events),
collecting the emitted events. -/
def runEnds : Nat → EngineState → EngineState × List Ev
  | 0, s => (s, [])
  | n + 1, s =>
    let r1 := onChunkEnd s
    let r2 := runEnds n r1.fst
    (r2.fst, r1.snd ++ r2.snd)

/-- The full observable trace of `playFrom(startIdx)` on a document
whose every queued utterance completes naturally. -/
def sessionTrace (segments : List JStr) (startIdx : Int) : List Ev :=
  let r1 := playFrom startIdx segments initialEngineState
  let r2 := runEnds r1.fst.utteranceQueue.length r1.fst
  r1.snd ++ r2.snd

/-- The ordinals of the position-changed notifications of a trace. -/
def positionsOf (evs : List Ev) : List Int :=
  evs.filterMap (fun e => match e with
    | Ev.posChanged i => some i
    | _ => none)

/-- The chunk texts handed to the synthesis facility, in order. -/
def speaksOf (evs : List Ev) : List JStr :=
  evs.filterMap (fun e => match e with
    | Ev.speakEv t => some t
    | _ => none)

/-! ### Concrete chunker evaluations used by the counterexamples -/

/-- 200 copies of `a`, then a spaced em-dash marker, then `b`: every
whitespace-free run has length at most 200, yet the dash marker matches
at index 200 and is accepted, producing a 202-character first chunk. -/
def c3text : JStr := List.replicate 200 'a' ++ " — b".data

/-- A single 201-character word with no boundary at all. -/
def c3word : JStr := List.replicate 201 'a'

theorem chunkText_c3text_eval :
    chunkText c3text = [List.replicate 200 'a' ++ " —".data, "b".data] := by
  have h1 : chunkLoop c3text =
      jsTrim (c3text.take (splitPoint c3text)) ::
        chunkLoop (jsTrim (c3text.drop (splitPoint c3text))) :=
    chunkLoop_step (by decide)
  have h2 : chunkLoop (jsTrim (c3text.drop (splitPoint c3text))) =
      [jsTrim (c3text.drop (splitPoint c3text))] := by
    rw [chunkLoop, if_neg (by decide), if_pos (by decide)]
  unfold chunkText
  rw [if_neg (by decide), h1, h2]
  decide

theorem chunkText_c3word_eval :
    chunkText c3word = [List.replicate 200 'a', ['a']] := by
  have h1 : chunkLoop c3word =
      jsTrim (c3word.take (splitPoint c3word)) ::
        chunkLoop (jsTrim (c3word.drop (splitPoint c3word))) :=
    chunkLoop_step (by decide)
  have h2 : chunkLoop (jsTrim (c3word.drop (splitPoint c3word))) =
      [jsTrim (c3word.drop (splitPoint c3word))] := by
    rw [chunkLoop, if_neg (by decide), if_pos (by decide)]
  unfold chunkText
  rw [if_neg (by decide), h1, h2]
  decide

/-! ### Claim C3 -/

/-- C3 fails on the code as stated: on `c3text` (no whitespace-free run
longer than 200) the chunker emits a 202-character chunk that contains
a space, so it is neither within the bound nor a single over-long word;
and the single 201-character word `c3word` is hard-cut into two chunks
rather than emitted whole. -/
theorem c3_counterexample :
    ((chunkText c3text).any
        (fun c => decide (MAX_UTTERANCE_LEN < c.length) && c.any isWS)
      = true)
    ∧ ((jsWords c3text).all
        (fun w => decide (w.length ≤ MAX_UTTERANCE_LEN)) = true)
    ∧ chunkText c3word ≠ [c3word]
    ∧ (chunkText c3word).length = 2 := by
  rw [chunkText_c3text_eval, chunkText_c3word_eval]
  refine ⟨by decide, by decide, by decide, by decide⟩

/-- C3 (amended): every chunk emitted by `chunkText` has length at most
`MAX_UTTERANCE_LEN + 2` — a boundary marker whose match starts exactly
at index `MAX_UTTERANCE_LEN` may push the trimmed chunk up to two
characters past the bound; a run with no qualifying boundary is
hard-cut at exactly the bound, not emitted whole. -/
theorem c3_chunk_bound (t c : JStr) (hc : c ∈ chunkText t) :
    c.length ≤ MAX_UTTERANCE_LEN + 2 := by
  unfold chunkText at hc
  split at hc
  · rw [List.mem_singleton] at hc
    subst hc
    omega
  · exact chunkLoop_bound t c (List.mem_filter.mp hc).1

theorem c3_witness :
    ("hello".data ∈ chunkText "hello".data)
    ∧ ("hello".data).length ≤ MAX_UTTERANCE_LEN + 2 :=
  ⟨by decide, c3_chunk_bound "hello".data "hello".data (by decide)⟩

/-! ### Claim C7 -/

/-- C7 fails on the code as stated: for the 201-character single word
`c3word`, the hard cut splits the word, the single-space join inserts a
space inside it, and whitespace normalization does not undo that, so
the normalized join differs from the normalized input. -/
theorem c7_counterexample :
    normalizeWS (joinSpace (chunkText c3word)) ≠ normalizeWS c3word := by
  rw [chunkText_c3word_eval]
  decide

/-- C7 (amended): the chunker never drops, duplicates or reorders a
non-whitespace character — removing all whitespace from the space-join
of the chunks yields the input with all whitespace removed.  Full
whitespace-normalized equality fails only because a hard cut inside an
over-long run inserts a chunk break. -/
theorem c7_char_preservation (t : JStr) :
    stripWS (joinSpace (chunkText t)) = stripWS t := by
  unfold chunkText
  split
  · cases (chunkText t) <;> rfl
  · rw [stripWS_joinSpace, flatten_filter_nonempty, chunkLoop_stripWS]

/-! ### Claim C8 -/

/-- C8: the chunker terminates on every input — whenever the splitting
loop recurses (`remaining` longer than the bound), the next `remaining`
is strictly shorter, and the loop unfolds to exactly one chunk plus the
recursive call on that shorter remainder. -/
theorem c8_termination (r : JStr) (h : MAX_UTTERANCE_LEN < r.length) :
    (jsTrim (r.drop (splitPoint r))).length < r.length
    ∧ chunkLoop r =
        jsTrim (r.take (splitPoint r)) ::
          chunkLoop (jsTrim (r.drop (splitPoint r))) :=
  ⟨remaining_shortens r h, chunkLoop_step h⟩

theorem c8_witness :
    MAX_UTTERANCE_LEN < c3word.length
    ∧ ((jsTrim (c3word.drop (splitPoint c3word))).length < c3word.length
       ∧ chunkLoop c3word =
           jsTrim (c3word.take (splitPoint c3word)) ::
             chunkLoop (jsTrim (c3word.drop (splitPoint c3word)))) :=
  ⟨by decide, c8_termination c3word (by decide)⟩

/-! ### Claim C9 -/

/-- C9 fails on the code as stated: `setSegmentIndex` performs no
clamping at all (storing 7 even though a 3-unit document would require
at most 2), and the `loadPDF` restore path clamps only from above, so
with zero units and a matching saved position the stored cursor is
`min 5 (0-1) = -1` and the getter returns `-1`, not `0`. -/
theorem c9_counterexample :
    (setSegmentIndex 7 initialEngineState).currentSegIdx = 7
    ∧ restoredSegIdx 5 0 = -1
    ∧ getSegmentIndex
        (setSegmentIndex (restoredSegIdx 5 0) initialEngineState) ≠ 0 := by
  refine ⟨rfl, by decide, by decide⟩

/-- C9 (amended): the cursor setter stores its argument unvalidated; the
`loadPDF` restore path applies only an upper clamp `min saved (count-1)`,
which yields a valid index whenever the saved ordinal is non-negative
and the document is nonempty, but yields `-1` (returned unchanged by the
getter) when the unit count is zero. -/
theorem c9_cursor_clamp (saved idx : Int) (count : Nat) (s : EngineState)
    (h0 : 0 ≤ saved) (hc : 0 < count) :
    0 ≤ restoredSegIdx saved count
    ∧ restoredSegIdx saved count < (count : Int)
    ∧ setSegmentIndex idx s = { s with currentSegIdx := idx }
    ∧ getSegmentIndex (setSegmentIndex idx s) = idx
    ∧ restoredSegIdx saved 0 = -1 := by
  unfold restoredSegIdx setSegmentIndex getSegmentIndex
  refine ⟨?_, ?_, rfl, rfl, ?_⟩
  · omega
  · omega
  · omega

theorem c9_witness :
    (0 ≤ (5:Int) ∧ 0 < 3)
    ∧ (0 ≤ restoredSegIdx 5 3
       ∧ restoredSegIdx 5 3 < (3:Int)
       ∧ setSegmentIndex 7 initialEngineState =
           { initialEngineState with currentSegIdx := 7 }
       ∧ getSegmentIndex (setSegmentIndex 7 initialEngineState) = 7
       ∧ restoredSegIdx 5 0 = -1) :=
  ⟨⟨by decide, by decide⟩,
   c9_cursor_clamp 5 7 3 initialEngineState (by decide) (by decide)⟩

/-! ### Claim C2 -/

/-- The document of the end-to-end scenario: units `["A. B.", "", "C."]`. -/
def segsC2 : List JStr := ["A. B.".data, "".data, "C.".data]

/-- C2 fails on the code as stated: the empty unit is not skipped —
`chunkText` of empty text returns one empty chunk, `buildQueue` enqueues
it, and the driving loop notifies its position — so the position
sequence is `[0, 1, 2]`, not `[0, 2]`, and the spoken chunk sequence
includes the empty chunk. -/
theorem c2_counterexample :
    positionsOf (sessionTrace segsC2 0) ≠ [0, 2]
    ∧ speaksOf (sessionTrace segsC2 0) ≠ ["A. B.".data, "C.".data] := by
  refine ⟨by decide, by decide⟩

/-- C2 (amended): on units `["A. B.", "", "C."]` with the 200-character
bound, `playFrom(0)` speaks the chunk sequence `["A. B.", "", "C."]`
(no unit is skipped: empty text yields one empty chunk), notifies
positions `[0, 1, 2]`, and ends with the stopped state-change followed
by the finished notification. -/
theorem c2_trace :
    sessionTrace segsC2 0 =
      [Ev.cancelEv, Ev.stateChanged true false,
       Ev.posChanged 0, Ev.speakEv "A. B.".data,
       Ev.posChanged 1, Ev.speakEv [],
       Ev.posChanged 2, Ev.speakEv "C.".data,
       Ev.stateChanged false false, Ev.finishedEv] := by
  decide

/-! ### Claim C4 -/

/-- C4: exhaustion of the chunk queue (natural completion) clears both
flags and emits the stopped state-change followed by `onFinished`;
`stop()` emits the cancel and the stopped state-change but never
`onFinished`, and after a stop neither the canceled-error report of the
in-flight utterance nor a late natural `onend` produces any further
notification (in particular no `onFinished`). -/
theorem c4_finished_vs_stopped (s t : EngineState)
    (h : t.utteranceQueue.length ≤ t.currentChunkIdx) :
    (speakNextChunk t).snd = [Ev.stateChanged false false, Ev.finishedEv]
    ∧ (speakNextChunk t).fst.isPlaying = false
    ∧ (speakNextChunk t).fst.isPaused = false
    ∧ (stop s).snd = [Ev.cancelEv, Ev.stateChanged false false]
    ∧ Ev.finishedEv ∉ (stop s).snd
    ∧ onChunkError "canceled" (stop s).fst = ((stop s).fst, [])
    ∧ (onChunkEnd (stop s).fst).snd = [] := by
  refine ⟨?_, ?_, ?_, rfl, by simp [stop], rfl, ?_⟩
  · rw [speakNextChunk, if_pos h]
  · rw [speakNextChunk, if_pos h]
  · rw [speakNextChunk, if_pos h]
  · unfold onChunkEnd stop
    dsimp only
    split <;> simp

theorem c4_witness :
    initialEngineState.utteranceQueue.length ≤
      initialEngineState.currentChunkIdx
    ∧ ((speakNextChunk initialEngineState).snd =
          [Ev.stateChanged false false, Ev.finishedEv]
       ∧ (speakNextChunk initialEngineState).fst.isPlaying = false
       ∧ (speakNextChunk initialEngineState).fst.isPaused = false
       ∧ (stop initialEngineState).snd =
           [Ev.cancelEv, Ev.stateChanged false false]
       ∧ Ev.finishedEv ∉ (stop initialEngineState).snd
       ∧ onChunkError "canceled" (stop initialEngineState).fst =
           ((stop initialEngineState).fst, [])
       ∧ (onChunkEnd (stop initialEngineState).fst).snd = []) :=
  ⟨by decide,
   c4_finished_vs_stopped initialEngineState initialEngineState (by decide)⟩

/-! ### Claim C5 -/

/-- C5: a chunk-level backend error that is not an abort signal advances
past the failed chunk and continues with the next chunk (the handler
behaves exactly like the natural-completion continuation from the
incremented chunk index), whereas the `"interrupted"` and `"canceled"`
codes are swallowed without advancing the index or starting a chunk. -/
theorem c5_error_policy (s : EngineState) (err : String)
    (hp : s.isPlaying = true) (hq : s.isPaused = false)
    (h1 : err ≠ "interrupted") (h2 : err ≠ "canceled") :
    onChunkError err s =
      speakNextChunk { s with currentChunkIdx := s.currentChunkIdx + 1 }
    ∧ onChunkError "interrupted" s = (s, [])
    ∧ onChunkError "canceled" s = (s, []) := by
  refine ⟨?_, by simp [onChunkError], by simp [onChunkError]⟩
  unfold onChunkError
  rw [if_neg (by simp [h1, h2])]
  dsimp only
  rw [if_pos (by simp [hp, hq])]

/-- A live playing state with one queued chunk, used to instantiate the
engine claims. -/
def liveState : EngineState :=
  { isPlaying := true, isPaused := false, currentSegIdx := 0,
    utteranceQueue := ["A.".data, "B.".data], chunkSegmentMap := [0, 1],
    currentChunkIdx := 0 }

theorem c5_witness :
    (liveState.isPlaying = true ∧ liveState.isPaused = false
     ∧ "synthesis-failed" ≠ "interrupted" ∧ "synthesis-failed" ≠ "canceled")
    ∧ (onChunkError "synthesis-failed" liveState =
         speakNextChunk
           { liveState with currentChunkIdx := liveState.currentChunkIdx + 1 }
       ∧ onChunkError "interrupted" liveState = (liveState, [])
       ∧ onChunkError "canceled" liveState = (liveState, [])) :=
  ⟨⟨by decide, by decide, by decide, by decide⟩,
   c5_error_policy liveState "synthesis-failed" (by decide) (by decide)
     (by decide) (by decide)⟩

/-! ### Claim C6 -/

/-- C6: on a live (playing) session, `pause()` followed by resuming via
`play()` changes nothing but the paused flag — the cursor, the chunk
index, the queue and the map are all untouched, the resume path issues
only the facility `resume` and a state notification (it never cancels,
rebuilds the queue, or speaks a new utterance), so playback continues
from the same chunk. -/
theorem c6_pause_resume (segs : List JStr) (s : EngineState)
    (hp : s.isPlaying = true) :
    (pause s).fst.currentSegIdx = s.currentSegIdx
    ∧ (pause s).fst.currentChunkIdx = s.currentChunkIdx
    ∧ (pause s).snd = [Ev.pauseEv, Ev.stateChanged true true]
    ∧ (play segs (pause s).fst).fst = { s with isPaused := false }
    ∧ (play segs (pause s).fst).snd = [Ev.resumeEv, Ev.stateChanged true false] := by
  have hpause : pause s =
      ({ s with isPaused := true }, [Ev.pauseEv, Ev.stateChanged true true]) := by
    unfold pause
    rw [if_neg (by simp [hp])]
  have hplay : play segs ({ s with isPaused := true }) =
      ({ { s with isPaused := true } with isPaused := false },
       [Ev.resumeEv, Ev.stateChanged true false]) := by
    unfold play
    rw [if_pos rfl]
  rcases s with ⟨p, q, i, Q, M, k⟩
  rw [hpause]
  refine ⟨rfl, rfl, rfl, ?_, ?_⟩
  · rw [hplay]
  · rw [hplay]

theorem c6_witness :
    liveState.isPlaying = true
    ∧ ((pause liveState).fst.currentSegIdx = liveState.currentSegIdx
       ∧ (pause liveState).fst.currentChunkIdx = liveState.currentChunkIdx
       ∧ (pause liveState).snd = [Ev.pauseEv, Ev.stateChanged true true]
       ∧ (play [] (pause liveState).fst).fst =
           { liveState with isPaused := false }
       ∧ (play [] (pause liveState).fst).snd =
           [Ev.resumeEv, Ev.stateChanged true false]) :=
  ⟨by decide, c6_pause_resume [] liveState (by decide)⟩

/-! ### Claim C10 -/

/-- The implicit flag invariant: the engine is never paused without
being playing. -/
def flagsConsistent (s : EngineState) : Prop :=
  s.isPaused = true → s.isPlaying = true

theorem flagsConsistent_speakNextChunk {t : EngineState}
    (h : flagsConsistent t) : flagsConsistent (speakNextChunk t).fst := by
  unfold speakNextChunk
  dsimp only
  split
  · intro hcontra; simp at hcontra
  · split <;> exact h

/-- C10: starting from the initial state, every public operation and
every utterance-completion or utterance-error step preserves the
invariant `isPaused → isPlaying`; `stop()` leaves both flags false, and
so does natural completion (queue exhaustion in the driving step). -/
theorem c10_flags_invariant (s : EngineState) (segs : List JStr)
    (i : Int) (err : String) (h : flagsConsistent s) :
    flagsConsistent initialEngineState
    ∧ flagsConsistent (play segs s).fst
    ∧ flagsConsistent (pause s).fst
    ∧ flagsConsistent (stop s).fst
    ∧ flagsConsistent (playFrom i segs s).fst
    ∧ flagsConsistent (onChunkEnd s).fst
    ∧ flagsConsistent (onChunkError err s).fst
    ∧ (stop s).fst.isPlaying = false
    ∧ (stop s).fst.isPaused = false
    ∧ (s.utteranceQueue.length ≤ s.currentChunkIdx →
        (speakNextChunk s).fst.isPlaying = false
        ∧ (speakNextChunk s).fst.isPaused = false) := by
  refine ⟨?_, ?_, ?_, ?_, ?_, ?_, ?_, rfl, rfl, ?_⟩
  · intro hcontra; simp [initialEngineState] at hcontra
  · unfold play
    dsimp only
    split
    · intro hcontra; simp at hcontra
    · exact flagsConsistent_speakNextChunk (fun _ => rfl)
  · by_cases hb : s.isPlaying
    · rw [pause, if_neg (by simp [hb])]
      intro _
      exact hb
    · rw [pause, if_pos (by simp [hb])]
      exact h
  · intro hcontra; simp [stop] at hcontra
  · unfold playFrom
    dsimp only
    exact flagsConsistent_speakNextChunk (fun _ => rfl)
  · unfold onChunkEnd
    dsimp only
    split <;> split <;>
      first
        | exact flagsConsistent_speakNextChunk (by exact h)
        | exact h
  · unfold onChunkError
    dsimp only
    split
    · exact h
    · split
      · exact flagsConsistent_speakNextChunk (by exact h)
      · exact h
  · intro hlen
    rw [speakNextChunk, if_pos hlen]
    exact ⟨rfl, rfl⟩

theorem c10_witness :
    flagsConsistent liveState
    ∧ (flagsConsistent initialEngineState
       ∧ flagsConsistent (play segsC2 liveState).fst
       ∧ flagsConsistent (pause liveState).fst
       ∧ flagsConsistent (stop liveState).fst
       ∧ flagsConsistent (playFrom 1 segsC2 liveState).fst
       ∧ flagsConsistent (onChunkEnd liveState).fst
       ∧ flagsConsistent (onChunkError "synthesis-failed" liveState).fst
       ∧ (stop liveState).fst.isPlaying = false
       ∧ (stop liveState).fst.isPaused = false
       ∧ (liveState.utteranceQueue.length ≤ liveState.currentChunkIdx →
           (speakNextChunk liveState).fst.isPlaying = false
           ∧ (speakNextChunk liveState).fst.isPaused = false)) :=
  ⟨fun _ => rfl,
   c10_flags_invariant liveState segsC2 1 "synthesis-failed" (fun _ => rfl)⟩

/-! ### Claim C1 -/

/-- `playFrom` overwrites every module variable (cursor, both flags,
queue, map, chunk index), so its result does not depend on the prior
state at all: the first session leaves no residue in the second. -/
theorem playFrom_const (b : Int) (segs : List JStr) (s s' : EngineState) :
    playFrom b segs s = playFrom b segs s' := by
  rcases s with ⟨p, q, i, Q, M, k⟩
  rcases s' with ⟨p', q', i', Q', M', k'⟩
  rfl

theorem buildQueue_cons (segs : List JStr) (t : EngineState)
    (hb : t.currentSegIdx.toNat < segs.length)
    {c : JStr} {cs : List JStr}
    (hch : chunkText (segs.getD t.currentSegIdx.toNat []) = c :: cs) :
    ∃ qrest mrest,
      (buildQueue segs t).utteranceQueue = c :: qrest
      ∧ (buildQueue segs t).chunkSegmentMap =
          t.currentSegIdx.toNat :: mrest := by
  unfold buildQueue
  dsimp only
  obtain ⟨k, hk⟩ : ∃ k, segs.length - t.currentSegIdx.toNat = k + 1 :=
    ⟨segs.length - t.currentSegIdx.toNat - 1, by omega⟩
  rw [hk, List.range'_succ, List.flatMap_cons, hch]
  simp only [List.map_cons, List.map_append, List.map_map, List.cons_append]
  exact ⟨_, _, rfl, rfl⟩

/-- On a state whose queue starts with chunk `c` mapped to segment `i`
equal to the current cursor, and whose chunk index is 0, the driving
step leaves the state unchanged and emits the position notification
followed by the speak command for `c`. -/
theorem speakNextChunk_first {u : EngineState} {c : JStr} {qrest : List JStr}
    {i : Nat} {mrest : List Nat}
    (hq : u.utteranceQueue = c :: qrest) (hm : u.chunkSegmentMap = i :: mrest)
    (hk : u.currentChunkIdx = 0) (hi : (i : Int) = u.currentSegIdx) :
    speakNextChunk u = (u, [Ev.posChanged u.currentSegIdx, Ev.speakEv c]) := by
  unfold speakNextChunk
  rw [if_neg (by rw [hq, hk]; simp)]
  dsimp only
  rw [hq, hm, hk]
  simp only [List.getD_cons_zero]
  rw [if_neg (by simp [hi])]

theorem playFrom_fields (b : Int) (segs : List JStr) (s : EngineState)
    (h0 : 0 ≤ b) (hb : b.toNat < segs.length)
    {c : JStr} {cs : List JStr}
    (hch : chunkText (segs.getD b.toNat []) = c :: cs) :
    (playFrom b segs s).fst.currentSegIdx = b
    ∧ (playFrom b segs s).fst.isPlaying = true
    ∧ (playFrom b segs s).fst.isPaused = false
    ∧ (playFrom b segs s).fst.currentChunkIdx = 0 := by
  obtain ⟨qrest, mrest, hqq, hmm⟩ :=
    buildQueue_cons segs
      { s with currentSegIdx := b, isPlaying := true, isPaused := false }
      (by simpa using hb) (by simpa using hch)
  have hfirst := speakNextChunk_first hqq (by exact hmm) rfl
    (by exact Int.toNat_of_nonneg h0)
  unfold playFrom
  dsimp only
  rw [hfirst]
  exact ⟨rfl, rfl, rfl, rfl⟩

/-- C1: starting a new session supersedes any live one — `playFrom(b)`
after `playFrom(a)` produces exactly the state and events of a single
`playFrom(b)` (the first session's queue, cursor and flags are all
rebuilt, so at most one session is live); the superseded session's
in-flight utterance reports a `"canceled"` error which the handler
drops without any state change or notification, so the first call's
chunk queue can never cause another position-changed notification; and
the surviving session is playing, positioned at chunk 0 with its cursor
at ordinal `b`. -/
theorem c1_at_most_one_session (a b : Int) (segs : List JStr)
    (s s' : EngineState) (c : JStr) (cs : List JStr)
    (h0 : 0 ≤ b) (hb : b.toNat < segs.length)
    (hch : chunkText (segs.getD b.toNat []) = c :: cs) :
    playFrom b segs (playFrom a segs s).fst = playFrom b segs s'
    ∧ (∀ t : EngineState, onChunkError "canceled" t = (t, []))
    ∧ (∀ t : EngineState, onChunkError "interrupted" t = (t, []))
    ∧ (playFrom b segs (playFrom a segs s).fst).fst.currentSegIdx = b
    ∧ (playFrom b segs (playFrom a segs s).fst).fst.isPlaying = true
    ∧ (playFrom b segs (playFrom a segs s).fst).fst.isPaused = false
    ∧ (playFrom b segs (playFrom a segs s).fst).fst.currentChunkIdx = 0 :=
  ⟨playFrom_const b segs (playFrom a segs s).fst s',
   fun t => by simp [onChunkError],
   fun t => by simp [onChunkError],
   (playFrom_fields b segs (playFrom a segs s).fst h0 hb hch).1,
   (playFrom_fields b segs (playFrom a segs s).fst h0 hb hch).2.1,
   (playFrom_fields b segs (playFrom a segs s).fst h0 hb hch).2.2.1,
   (playFrom_fields b segs (playFrom a segs s).fst h0 hb hch).2.2.2⟩

/-- Six one-sentence units, large enough for the `playFrom(5)` then
`playFrom(2)` scenario of the claim. -/
def segsC1 : List JStr :=
  ["U0.".data, "U1.".data, "U2.".data, "U3.".data, "U4.".data, "U5.".data]

theorem c1_witness :
    (0 ≤ (2:Int) ∧ (2:Int).toNat < segsC1.length
     ∧ chunkText (segsC1.getD (2:Int).toNat []) = "U2.".data :: [])
    ∧ (playFrom 2 segsC1 (playFrom 5 segsC1 initialEngineState).fst =
         playFrom 2 segsC1 initialEngineState
       ∧ (∀ t : EngineState, onChunkError "canceled" t = (t, []))
       ∧ (∀ t : EngineState, onChunkError "interrupted" t = (t, []))
       ∧ (playFrom 2 segsC1
            (playFrom 5 segsC1 initialEngineState).fst).fst.currentSegIdx = 2
       ∧ (playFrom 2 segsC1
            (playFrom 5 segsC1 initialEngineState).fst).fst.isPlaying = true
       ∧ (playFrom 2 segsC1
            (playFrom 5 segsC1 initialEngineState).fst).fst.isPaused = false
       ∧ (playFrom 2 segsC1
            (playFrom 5 segsC1 initialEngineState).fst).fst.currentChunkIdx
           = 0) :=
  ⟨⟨by decide, by decide, by decide⟩,
   c1_at_most_one_session 5 2 segsC1 initialEngineState initialEngineState
     "U2.".data [] (by decide) (by decide) (by decide)⟩

end Liseuse
